import Mathlib

/-!
Verification of the event-tracking / deduplication subsystem and the
scheduling loop of the passage-plan notifier.

Shallow embedding conventions:

* A stored timestamp string is modelled as `Option Int`: `some t` stands for
  an ISO-8601 string that `datetime.fromisoformat` parses to the instant `t`,
  `none` for an unparseable string.  `datetime.isoformat` always produces a
  parseable string, so marking an event stores `some t`.  Instants and
  durations share one integer time scale, which preserves the order
  comparisons the code performs.
* The Python dict `sent_events : key -> timestamp string` is an association
  list with unique keys; insertion overwrites in place, as dict assignment
  does.
* File I/O is modelled by an explicit `FileState`; the `try/except` blocks of
  `_load` become total case analysis, and the possible failure of `_save`
  becomes an explicit `WriteOutcome` parameter whose error is returned as an
  `Except` value (a raised exception).
-/

namespace Tracking

/-- Model of a stored timestamp string: `some t` parses to instant `t`,
`none` is unparseable. -/
abbrev TsStr := Option Int

/-- Model of the `sent_events` dict: key -> timestamp string, keys unique. -/
abbrev SentEvents := List (String × TsStr)

/-- Dict membership test `event_key in self.sent_events`
(`EventTracker.is_sent`, tracking.py line 228). -/
def is_sent (m : SentEvents) (k : String) : Bool :=
  m.any fun p => p.1 == k

/-- Dict assignment `self.sent_events[key] = v`: overwrite in place if the key
exists, else append. -/
def insertKey (m : SentEvents) (k : String) (v : TsStr) : SentEvents :=
  if is_sent m k then
    m.map fun p => if p.1 == k then (k, v) else p
  else
    m ++ [(k, v)]

/-- The loop of `mark_as_sent` (tracking.py lines 212-213): insert every key
with the formatted timestamp. -/
def markKeys (m : SentEvents) (ks : List String) (t : Int) : SentEvents :=
  ks.foldl (fun acc k => insertKey acc k (some t)) m

/-- Outcome of the file write attempted by `_save`. -/
inductive WriteOutcome
  | success
  | failure
deriving DecidableEq, Repr

/-- `EventTracker._save` (tracking.py lines 131-166): on any write failure the
exception is logged and re-raised (`raise`, line 166); on success it returns
normally. -/
def saveResult : WriteOutcome → Except String Unit
  | WriteOutcome.success => Except.ok ()
  | WriteOutcome.failure => Except.error "save failed"

/-- `EventTracker.mark_as_sent` (tracking.py lines 202-216): first inserts
every key into the in-memory dict, then calls `_save`.  The result is the
in-memory dict after the loop together with the outcome of the save, which
`mark_as_sent` does not catch. -/
def mark_as_sent (m : SentEvents) (ks : List String) (t : Int)
    (w : WriteOutcome) : SentEvents × Except String Unit :=
  (markKeys m ks t, saveResult w)

/-- `EventTracker.filter_unsent_events` (tracking.py lines 168-200): empty
input is returned as is; otherwise keep exactly the rows whose derived key is
not among the sent keys (`~tracking_keys.isin(self.sent_events.keys())`). -/
def filter_unsent_events {R : Type} (m : SentEvents) (df : List R)
    (key_func : R → String) : List R :=
  if df.isEmpty then df
  else df.filter fun r => !(is_sent m (key_func r))

/-- The parsed content of the tracking JSON file: the optional `sent_events`
object and the optional legacy `sent_event_ids` list. -/
structure FileData where
  sent_events : Option SentEvents
  sent_event_ids : Option (List String)
deriving DecidableEq, Repr

/-- State of the tracking file as `_load` can encounter it. -/
inductive FileState
  | missing
  | corrupt
  | readError
  | ok (fd : FileData)
deriving DecidableEq, Repr

/-- The file `_save` leaves behind: only the `sent_events` object (plus
`last_updated`); no legacy `sent_event_ids` field. -/
def savedFile (m : SentEvents) : FileState :=
  FileState.ok ⟨some m, none⟩

/-- Lines 63-72 of `_load`: take the `sent_events` object of the file,
defaulting to empty; if that is empty (falsy) and a `sent_event_ids` field is
present, convert the legacy list, stamping every key with the current time. -/
def loadData (now : Int) (fd : FileData) : SentEvents :=
  let sed := fd.sent_events.getD []
  if sed.isEmpty && fd.sent_event_ids.isSome then
    (fd.sent_event_ids.getD []).map fun i => (i, some now)
  else sed

/-- Line 87 of `_load`: an entry survives eviction iff its timestamp parses
and `event_timestamp >= cutoff_date` where `cutoff_date = now - window`.
Unparseable timestamps (lines 96-98) are removed. -/
def keepEntry (window now : Int) (p : String × TsStr) : Bool :=
  match p.2 with
  | some t => decide (now - window ≤ t)
  | none => false

/-- Lines 80-98 of `_load`: the surviving entries, in file order. -/
def evictFilter (window now : Int) (data : SentEvents) : SentEvents :=
  data.filter (keepEntry window now)

/-- `removed_count` of `_load`: one increment per entry that is either too old
or unparseable. -/
def removedCount (window now : Int) (data : SentEvents) : Nat :=
  data.countP fun p => !(keepEntry window now p)

/-- `EventTracker._load` (tracking.py lines 49-128).  Returns the resulting
in-memory `sent_events`, the file state after the load, and whether the load
re-persisted the ledger (`removed_count > 0`, line 100).  A missing file, a
JSON decode error, and any other read error all yield an empty dict without
raising; with a reminder window the loaded data is filtered by `keepEntry` and
saved back iff anything was removed; without a window it is kept verbatim. -/
def loadResult (window : Option Int) (now : Int) (fs : FileState) :
    SentEvents × FileState × Bool :=
  match fs with
  | FileState.missing => ([], fs, false)
  | FileState.corrupt => ([], fs, false)
  | FileState.readError => ([], fs, false)
  | FileState.ok fd =>
    let data := loadData now fd
    match window with
    | some w =>
      let filtered := evictFilter w now data
      if removedCount w now data > 0 then (filtered, savedFile filtered, true)
      else (filtered, fs, false)
    | none => (data, fs, false)

end Tracking

namespace Sched

/-- What a registered alert runner does when invoked. -/
inductive Behavior
  | ok
  | exn
deriving DecidableEq, Repr

/-- A registered alert runner: `id` identifies it in the invocation trace,
`behavior` is what its call does, `dur` is how long the call takes on the
discrete time scale. -/
structure Runner where
  id : Nat
  behavior : Behavior
  dur : Nat
deriving DecidableEq, Repr

/-- Invoking one runner (`alert_runner()`, scheduler.py line 86): it either
returns or raises. -/
def invoke (r : Runner) : Except String Unit :=
  match r.behavior with
  | Behavior.ok => Except.ok ()
  | Behavior.exn => Except.error "alert failed"

/-- The shutdown flag as a function of discrete time: it is set from time
`s0` on when the environment delivers a signal at `s0` (`shutdown_event` is
monotone - once set it stays set). -/
def flagAt (s : Option Nat) (t : Nat) : Bool :=
  match s with
  | none => false
  | some s0 => decide (s0 ≤ t)

/-- The loop body of `AlertScheduler._run_all_alerts` (scheduler.py lines
79-89): before each runner, break if the shutdown flag is set; otherwise
invoke the runner, catching any exception (lines 87-89) and proceeding to the
next one.  Returns the ordered list of invoked runner ids and the time when
the loop finishes. -/
def runCycle (s : Option Nat) : List Runner → Nat → List Nat × Nat
  | [], t => ([], t)
  | r :: rest, t =>
    if flagAt s t then ([], t)
    else
      match invoke r with
      | Except.ok _ =>
        let res := runCycle s rest (t + r.dur)
        (r.id :: res.1, res.2)
      | Except.error _ =>
        let res := runCycle s rest (t + r.dur)
        (r.id :: res.1, res.2)

/-- `AlertScheduler.run_once` (scheduler.py lines 91-105): one call to
`_run_all_alerts`, starting at time 0; returns normally whatever the runners
do.  Result: the invocation trace. -/
def run_once (s : Option Nat) (alerts : List Runner) : List Nat :=
  (runCycle s alerts 0).1

/-- `threading.Event.wait(timeout)` on the shutdown event: returns `true` as
soon as the flag is set, without waiting out the timeout, and `false` after
the full timeout otherwise.  Result: (time at which the wait returns, its
boolean result).  Models the Python standard-library primitive the scheduler
relies on for its interruptible sleep (scheduler.py line 138). -/
def waitEvent (s : Option Nat) (start timeout : Nat) : Nat × Bool :=
  match s with
  | none => (start + timeout, false)
  | some s0 =>
    if s0 ≤ start then (start, true)
    else if s0 ≤ start + timeout then (s0, true)
    else (start + timeout, false)

/-- State of the `run_continuous` while-loop between iterations. -/
structure LoopState where
  time : Nat
  stopped : Bool
  trace : List Nat
deriving DecidableEq, Repr

/-- One iteration of the `while not self.shutdown_event.is_set()` loop of
`AlertScheduler.run_continuous` (scheduler.py lines 121-140): check the flag,
run all alerts, check the flag again (line 127), then sleep interruptibly;
a wait that returns `true` breaks out of the loop (line 138). -/
def loopStep (s : Option Nat) (alerts : List Runner) (interval : Nat)
    (st : LoopState) : LoopState :=
  if st.stopped then st
  else if flagAt s st.time then { st with stopped := true }
  else
    let res := runCycle s alerts st.time
    if flagAt s res.2 then ⟨res.2, true, st.trace ++ res.1⟩
    else
      let wr := waitEvent s res.2 interval
      ⟨wr.1, wr.2, st.trace ++ res.1⟩

end Sched

namespace Tracking

/-- The dict invariant: keys of the association list are pairwise distinct. -/
def keysNodup (m : SentEvents) : Prop :=
  (m.map Prod.fst).Nodup

theorem is_sent_iff {m : SentEvents} {k : String} :
    is_sent m k = true ↔ ∃ ts, (k, ts) ∈ m := by
  simp only [is_sent, List.any_eq_true]
  constructor
  · rintro ⟨⟨a, b⟩, hm, hb⟩
    simp only [beq_iff_eq] at hb
    subst hb
    exact ⟨b, hm⟩
  · rintro ⟨ts, hm⟩
    exact ⟨(k, ts), hm, by simp⟩

theorem mem_insertKey_self (m : SentEvents) (k : String) (v : TsStr) :
    (k, v) ∈ insertKey m k v := by
  unfold insertKey
  by_cases h : is_sent m k = true
  · simp only [h, if_true]
    rcases is_sent_iff.mp h with ⟨ts, hm⟩
    have hmem := List.mem_map_of_mem
      (fun p : String × TsStr => if p.1 == k then (k, v) else p) hm
    simpa using hmem
  · simp only [Bool.not_eq_true] at h
    simp [insertKey, h]

theorem is_sent_insertKey_self (m : SentEvents) (k : String) (v : TsStr) :
    is_sent (insertKey m k v) k = true :=
  is_sent_iff.mpr ⟨v, mem_insertKey_self m k v⟩

theorem is_sent_insertKey_mono {m : SentEvents} {k : String} (k2 : String)
    (v : TsStr) (h : is_sent m k = true) :
    is_sent (insertKey m k2 v) k = true := by
  rcases is_sent_iff.mp h with ⟨ts, hm⟩
  unfold insertKey
  by_cases h2 : is_sent m k2 = true
  · simp only [h2, if_true]
    apply is_sent_iff.mpr
    by_cases hk : k = k2
    · subst hk
      refine ⟨v, ?_⟩
      have hmem := List.mem_map_of_mem
        (fun p : String × TsStr => if p.1 == k then (k, v) else p) hm
      simpa using hmem
    · refine ⟨ts, ?_⟩
      have hmem := List.mem_map_of_mem
        (fun p : String × TsStr => if p.1 == k2 then (k2, v) else p) hm
      simpa [hk] using hmem
  · simp only [Bool.not_eq_true] at h2
    simp only [h2, Bool.false_eq_true, if_false]
    exact is_sent_iff.mpr ⟨ts, List.mem_append_left _ hm⟩

theorem is_sent_markKeys_mono {m : SentEvents} {k : String} (ks : List String)
    (t : Int) (h : is_sent m k = true) :
    is_sent (markKeys m ks t) k = true := by
  induction ks generalizing m with
  | nil => exact h
  | cons k2 rest ih => exact ih (is_sent_insertKey_mono k2 (some t) h)

theorem is_sent_markKeys_of_mem {k : String} {ks : List String}
    (m : SentEvents) (t : Int) (hk : k ∈ ks) :
    is_sent (markKeys m ks t) k = true := by
  induction ks generalizing m with
  | nil => cases hk
  | cons k2 rest ih =>
    rcases List.mem_cons.mp hk with h | h
    · subst h
      exact is_sent_markKeys_mono rest t (is_sent_insertKey_self m k (some t))
    · exact ih _ h

theorem keysNodup_insertKey {m : SentEvents} (k : String) (v : TsStr)
    (h : keysNodup m) : keysNodup (insertKey m k v) := by
  unfold insertKey
  by_cases hs : is_sent m k = true
  · simp only [hs, if_true]
    unfold keysNodup at h ⊢
    rw [List.map_map]
    have : ∀ p ∈ m, (Prod.fst ∘ fun p : String × TsStr =>
        if p.1 == k then (k, v) else p) p = p.1 := by
      intro p _
      by_cases hp : p.1 = k
      · simp [hp]
      · simp [hp]
    rwa [List.map_congr_left this]
  · simp only [Bool.not_eq_true] at hs
    simp only [hs, Bool.false_eq_true, if_false]
    unfold keysNodup at h ⊢
    rw [List.map_append]
    refine List.nodup_append.mpr ⟨h, List.nodup_singleton k, ?_⟩
    intro a ha hb
    simp only [List.map_cons, List.map_nil, List.mem_singleton] at hb
    subst hb
    rcases List.mem_map.mp ha with ⟨p, hp, hfst⟩
    have : is_sent m a = true := is_sent_iff.mpr ⟨p.2, by rw [← hfst]; exact hp⟩
    rw [this] at hs
    cases hs

theorem eq_of_keysNodup {m : SentEvents} (h : keysNodup m) :
    ∀ p ∈ m, ∀ q ∈ m, p.1 = q.1 → p = q := by
  induction m with
  | nil => intro p hp; cases hp
  | cons x xs ih =>
    unfold keysNodup at h
    rw [List.map_cons, List.nodup_cons] at h
    intro p hp q hq hpq
    rcases List.mem_cons.mp hp with hp1 | hp1 <;>
      rcases List.mem_cons.mp hq with hq1 | hq1
    · rw [hp1, hq1]
    · exfalso
      apply h.1
      rw [hp1] at hpq
      rw [hpq]
      exact List.mem_map_of_mem _ hq1
    · exfalso
      apply h.1
      rw [hq1] at hpq
      rw [← hpq]
      exact List.mem_map_of_mem _ hp1
    · exact ih h.2 p hp1 q hq1 hpq

theorem is_sent_evictFilter {data : SentEvents} {k : String} {t : Int}
    (w now : Int) (hnd : keysNodup data) (hm : (k, some t) ∈ data) :
    is_sent (evictFilter w now data) k = decide (now - w ≤ t) := by
  by_cases hle : now - w ≤ t
  · have hkeep : keepEntry w now (k, some t) = true := by
      simp [keepEntry, hle]
    have : (k, some t) ∈ evictFilter w now data :=
      List.mem_filter.mpr ⟨hm, hkeep⟩
    rw [is_sent_iff.mpr ⟨some t, this⟩]
    simp [hle]
  · have : is_sent (evictFilter w now data) k = false := by
      rw [← Bool.not_eq_true, is_sent_iff]
      rintro ⟨ts, hmem⟩
      rcases List.mem_filter.mp hmem with ⟨hdata, hkeep⟩
      have heq := eq_of_keysNodup hnd _ hdata _ hm rfl
      rw [heq] at hkeep
      simp only [keepEntry, decide_eq_true_eq] at hkeep
      exact hle hkeep
    rw [this]
    simp [hle]

theorem loadData_saved (now : Int) (m : SentEvents) :
    loadData now ⟨some m, none⟩ = m := by
  simp [loadData]

theorem loadResult_none_saved (now : Int) (m : SentEvents) :
    loadResult none now (savedFile m) = (m, savedFile m, false) := by
  simp [loadResult, savedFile, loadData_saved]

theorem loadResult_some_fst (w now : Int) (fd : FileData) :
    (loadResult (some w) now (FileState.ok fd)).1
      = evictFilter w now (loadData now fd) := by
  simp only [loadResult]
  split <;> rfl

theorem loadResult_some_didSave (w now : Int) (fd : FileData) :
    (loadResult (some w) now (FileState.ok fd)).2.2
      = decide (0 < removedCount w now (loadData now fd)) := by
  simp only [loadResult]
  split <;> rename_i h <;> simp [h]

theorem loadResult_some_file (w now : Int) (fd : FileData) :
    (loadResult (some w) now (FileState.ok fd)).2.1
      = if 0 < removedCount w now (loadData now fd) then
          savedFile (evictFilter w now (loadData now fd))
        else FileState.ok fd := by
  simp only [loadResult]
  split <;> rename_i h <;> simp [h]

theorem filter_unsent_events_eq {R : Type} (m : SentEvents) (df : List R)
    (key_func : R → String) :
    filter_unsent_events m df key_func
      = df.filter fun r => !(is_sent m (key_func r)) := by
  cases df with
  | nil => rfl
  | cons a l => simp [filter_unsent_events]

/-- C2: `filter_unsent_events(B, f)` returns exactly the records of `B` whose
derived key is not currently in the sent-events map, preserving the original
relative order of `B` (the result is a sublist of `B`), and returns an empty
sequence on empty input. -/
theorem C2_filter_unsent_correct {R : Type} (m : SentEvents) (df : List R)
    (key_func : R → String) :
    filter_unsent_events m df key_func
        = df.filter (fun r => !(is_sent m (key_func r))) ∧
    (filter_unsent_events m df key_func).Sublist df ∧
    (∀ r, r ∈ filter_unsent_events m df key_func
        ↔ r ∈ df ∧ is_sent m (key_func r) = false) ∧
    filter_unsent_events m ([] : List R) key_func = [] := by
  have hfe := filter_unsent_events_eq m df key_func
  refine ⟨hfe, ?_, ?_, rfl⟩
  · rw [hfe]
    exact List.filter_sublist df
  · intro r
    rw [hfe]
    simp [List.mem_filter]

/-- C3: during a load with reminder window `w`, every entry with
`sent_at < now - w` is removed, every entry with an unparseable `sent_at` is
removed (all surviving timestamps parse), all other entries are kept, and the
ledger is re-persisted during the load iff at least one entry was removed.
With no window, nothing is removed and nothing is re-persisted. -/
theorem C3_load_eviction (w now : Int) (entries : SentEvents) :
    (loadResult (some w) now (savedFile entries)).1
        = entries.filter (keepEntry w now) ∧
    (∀ k t, (k, some t) ∈ (loadResult (some w) now (savedFile entries)).1
        ↔ ((k, some t) ∈ entries ∧ now - w ≤ t)) ∧
    ((loadResult (some w) now (savedFile entries)).1.all
        fun p => p.2.isSome) = true ∧
    ((loadResult (some w) now (savedFile entries)).2.2 = true
        ↔ ∃ p ∈ entries, keepEntry w now p = false) ∧
    ((loadResult (some w) now (savedFile entries)).2.1
        = if (loadResult (some w) now (savedFile entries)).2.2 then
            savedFile ((loadResult (some w) now (savedFile entries)).1)
          else savedFile entries) ∧
    loadResult none now (savedFile entries)
        = (entries, savedFile entries, false) := by
  have hld : loadData now ⟨some entries, none⟩ = entries := loadData_saved now entries
  have hfst : (loadResult (some w) now (savedFile entries)).1
      = entries.filter (keepEntry w now) := by
    simp only [savedFile]
    rw [loadResult_some_fst, hld]
    rfl
  refine ⟨hfst, ?_, ?_, ?_, ?_, loadResult_none_saved now entries⟩
  · intro k t
    rw [hfst]
    simp [List.mem_filter, keepEntry]
  · rw [hfst]
    simp only [List.all_eq_true]
    intro p hp
    have hk := (List.mem_filter.mp hp).2
    cases h2 : p.2 with
    | none => rw [keepEntry, h2] at hk; cases hk
    | some t => simp
  · simp only [savedFile]
    rw [loadResult_some_didSave, hld]
    simp only [decide_eq_true_eq, removedCount, List.countP_pos_iff]
    constructor
    · rintro ⟨p, hp, hkeep⟩
      exact ⟨p, hp, by simpa using hkeep⟩
    · rintro ⟨p, hp, hkeep⟩
      exact ⟨p, hp, by simp [hkeep]⟩
  · simp only [savedFile]
    rw [loadResult_some_file, loadResult_some_didSave, loadResult_some_fst, hld]
    by_cases h : 0 < removedCount w now entries
    · simp [h, evictFilter, savedFile]
    · simp [h, evictFilter, savedFile]

/-- C5: if the persistence write of `mark_as_sent` cannot complete, the
exception raised by `_save` is returned to the caller unchanged (never
swallowed); a successful write returns normally. -/
theorem C5_mark_propagates_write_failure (m : SentEvents) (ks : List String)
    (t : Int) :
    (mark_as_sent m ks t WriteOutcome.failure).2 = Except.error "save failed" ∧
    (mark_as_sent m ks t WriteOutcome.success).2 = Except.ok () :=
  ⟨rfl, rfl⟩

/-- C6: `_load` never propagates a read error: a missing file, a JSON decode
error, and any other read error each yield an empty ledger (and no save),
rather than an exception - `loadResult` is total. -/
theorem C6_load_swallows_read_errors (window : Option Int) (now : Int) :
    loadResult window now FileState.missing = ([], FileState.missing, false) ∧
    loadResult window now FileState.corrupt = ([], FileState.corrupt, false) ∧
    loadResult window now FileState.readError
        = ([], FileState.readError, false) := by
  refine ⟨?_, ?_, ?_⟩ <;> cases window <;> rfl

/-- C9: with the reminder window unset, a load keeps every entry of the file
verbatim - including entries whose timestamp does not parse - and `is_sent`
returns `true` for every key in the file. -/
theorem C9_no_window_keeps_unparseable (now : Int) (entries : SentEvents) :
    (loadResult none now (savedFile entries)).1 = entries ∧
    (entries.all
        fun p => is_sent (loadResult none now (savedFile entries)).1 p.1) = true := by
  have h1 : (loadResult none now (savedFile entries)).1 = entries := by
    rw [loadResult_none_saved]
  refine ⟨h1, ?_⟩
  simp only [List.all_eq_true, h1]
  intro p hp
  exact is_sent_iff.mpr ⟨p.2, by rw [Prod.mk.eta]; exact hp⟩

theorem is_sent_of_mem_filter_unsent {R : Type} {m : SentEvents} {df : List R}
    {key_func : R → String} {r : R} (hr : r ∈ filter_unsent_events m df key_func) :
    is_sent m (key_func r) = false := by
  rw [filter_unsent_events_eq] at hr
  have h := (List.mem_filter.mp hr).2
  simpa using h

/-- C10: `mark_as_sent` updates the in-memory map before attempting the save,
so even when the write fails and the error propagates, every given key is
sent in memory: `is_sent` is `true` for it and `filter_unsent_events`
excludes every record carrying it. -/
theorem C10_memory_updated_despite_write_failure (m : SentEvents)
    (ks : List String) (t : Int) (k : String) (hk : k ∈ ks) :
    is_sent (mark_as_sent m ks t WriteOutcome.failure).1 k = true ∧
    (mark_as_sent m ks t WriteOutcome.failure).2 = Except.error "save failed" ∧
    (∀ (R : Type) (df : List R) (key_func : R → String),
      ((filter_unsent_events (mark_as_sent m ks t WriteOutcome.failure).1
          df key_func).all fun r => !(key_func r == k)) = true) := by
  have hsent : is_sent (markKeys m ks t) k = true := is_sent_markKeys_of_mem m t hk
  refine ⟨hsent, rfl, ?_⟩
  intro R df key_func
  simp only [List.all_eq_true]
  intro r hr
  have hf := is_sent_of_mem_filter_unsent hr
  have hsent2 : is_sent (mark_as_sent m ks t WriteOutcome.failure).1 k = true := hsent
  by_cases hreq : key_func r = k
  · rw [hreq] at hf
    rw [hf] at hsent2
    cases hsent2
  · simp [hreq]

/-- C10 witness: marking key `a` with a failing write leaves `a` sent in
memory, returns the write error, and filtering a batch containing key `a`
yields no record keyed `a`. -/
theorem C10_witness :
    is_sent (mark_as_sent [] ["a"] 0 WriteOutcome.failure).1 "a" = true ∧
    (mark_as_sent [] ["a"] 0 WriteOutcome.failure).2
        = Except.error "save failed" ∧
    ((filter_unsent_events (mark_as_sent [] ["a"] 0 WriteOutcome.failure).1
        ["a"] (fun s => s)).all fun r => !(r == "a")) = true := by
  have h := C10_memory_updated_despite_write_failure [] ["a"] 0 "a"
    (by decide)
  exact ⟨h.1, h.2.1, h.2.2 String ["a"] (fun s => s)⟩

/-- C1 counterexample at the window boundary: with window `W = 7` and an
entry sent at `t = 0`, at `now = 7` we have `now - t ≥ W`, so the claim says
eviction has occurred; but the code keeps any entry with
`event_timestamp >= cutoff_date` (tracking.py line 87), so the key is still
sent after the load. -/
theorem C1_boundary_counterexample :
    (7 : Int) - 0 ≥ 7 ∧
    is_sent (loadResult (some 7) 7 (savedFile [("k", some 0)])).1 "k" = true := by
  constructor
  · decide
  · decide

/-- C1 (amended): if `mark_as_sent({k}, t)` completes without raising, then
`is_sent(k)` is `true` from that point on: immediately, after any further
`mark_as_sent`, and after any load with no reminder window.  After a load
with window `w` at time `now`, `k` is still sent iff `now - t ≤ w`: eviction
occurs once `now - t > w` (strictly), not once `now - t ≥ w`. -/
theorem C1_sent_until_window_strictly_exceeded (m : SentEvents) (k : String)
    (t : Int) (wo : WriteOutcome) (hnd : keysNodup m)
    (hok : (mark_as_sent m [k] t wo).2 = Except.ok ()) :
    is_sent (mark_as_sent m [k] t wo).1 k = true ∧
    (∀ ks t2, is_sent (markKeys (mark_as_sent m [k] t wo).1 ks t2) k = true) ∧
    (∀ now, is_sent
        (loadResult none now (savedFile (mark_as_sent m [k] t wo).1)).1 k
        = true) ∧
    (∀ now w, is_sent
        (loadResult (some w) now (savedFile (mark_as_sent m [k] t wo).1)).1 k
        = decide (now - t ≤ w)) := by
  have hm1 : (mark_as_sent m [k] t wo).1 = insertKey m k (some t) := rfl
  refine ⟨?_, ?_, ?_, ?_⟩
  · rw [hm1]
    exact is_sent_insertKey_self m k (some t)
  · intro ks t2
    apply is_sent_markKeys_mono
    rw [hm1]
    exact is_sent_insertKey_self m k (some t)
  · intro now
    rw [loadResult_none_saved, hm1]
    exact is_sent_insertKey_self m k (some t)
  · intro now w
    rw [hm1]
    have hnd2 : keysNodup (insertKey m k (some t)) := keysNodup_insertKey k _ hnd
    have hmem : (k, some t) ∈ insertKey m k (some t) := mem_insertKey_self m k (some t)
    simp only [savedFile]
    rw [loadResult_some_fst, loadData_saved, is_sent_evictFilter w now hnd2 hmem]
    exact decide_eq_decide.mpr (by omega)

/-- C1 witness: after marking `k` at time 0 with a successful write, `k` is
sent, and a load with window 7 at time 10 has evicted it
(`10 - 0 ≤ 7` is false). -/
theorem C1_witness :
    is_sent (mark_as_sent [] ["k"] 0 WriteOutcome.success).1 "k" = true ∧
    is_sent (loadResult (some 7) 10
        (savedFile (mark_as_sent [] ["k"] 0 WriteOutcome.success).1)).1 "k"
      = decide ((10 : Int) - 0 ≤ 7) := by
  have h := C1_sent_until_window_strictly_exceeded [] "k" 0 WriteOutcome.success
    List.nodup_nil rfl
  exact ⟨h.1, h.2.2.2 10 7⟩

/-- C4 counterexample: loading a legacy file (`sent_event_ids` only) at time
5 leaves the file unchanged - still in the legacy format - because nothing
was evicted, so no save happens during the load; a subsequent reload of that
file at time 6 hits the legacy branch again and re-stamps the key with 6
instead of seeing a migrated dict-with-timestamps file. -/
theorem C4_reload_sees_legacy_counterexample :
    (loadResult none 5 (FileState.ok ⟨none, some ["a"]⟩)).2.1
        = FileState.ok ⟨none, some ["a"]⟩ ∧
    (loadResult none 6
        ((loadResult none 5 (FileState.ok ⟨none, some ["a"]⟩)).2.1)).1
        = [("a", some 6)] := by
  constructor
  · rfl
  · rfl

/-- C4 (amended): loading a legacy list-of-keys file produces an in-memory
ledger in which every legacy key is marked sent with exactly the load time as
timestamp (hence no earlier than the load), but the load does not rewrite the
file: with no reminder window, or with a nonnegative window (under which the
freshly stamped entries are never evicted), the file still holds the legacy
format afterwards; the migrated format reaches disk only through a later
save. -/
theorem C4_legacy_migration_in_memory_only (now : Int) (ids : List String)
    (w : Int) (hw : 0 ≤ w) :
    (loadResult none now (FileState.ok ⟨none, some ids⟩)).1
        = ids.map (fun i => (i, some now)) ∧
    (loadResult none now (FileState.ok ⟨none, some ids⟩)).2.1
        = FileState.ok ⟨none, some ids⟩ ∧
    (loadResult (some w) now (FileState.ok ⟨none, some ids⟩)).1
        = ids.map (fun i => (i, some now)) ∧
    (loadResult (some w) now (FileState.ok ⟨none, some ids⟩)).2.1
        = FileState.ok ⟨none, some ids⟩ ∧
    (ids.all fun i =>
        is_sent (loadResult none now (FileState.ok ⟨none, some ids⟩)).1 i)
        = true := by
  have hdata : loadData now ⟨none, some ids⟩ = ids.map (fun i => (i, some now)) := by
    simp [loadData]
  have hkeep : ∀ p ∈ ids.map (fun i => (i, some now)),
      keepEntry w now p = true := by
    intro p hp
    rcases List.mem_map.mp hp with ⟨i, _, hi⟩
    rw [← hi]
    simp only [keepEntry, decide_eq_true_eq]
    omega
  have hcount : removedCount w now (ids.map (fun i => (i, some now))) = 0 := by
    rw [removedCount, List.countP_eq_zero]
    intro p hp
    simp [hkeep p hp]
  have hfst : (loadResult none now (FileState.ok ⟨none, some ids⟩)).1
      = ids.map (fun i => (i, some now)) := by
    simp [loadResult, hdata]
  refine ⟨hfst, by simp [loadResult], ?_, ?_, ?_⟩
  · rw [loadResult_some_fst, hdata, evictFilter, List.filter_eq_self.mpr hkeep]
  · rw [loadResult_some_file, hdata, hcount]
    simp
  · simp only [List.all_eq_true, hfst]
    intro i hi
    exact is_sent_iff.mpr ⟨some now, List.mem_map_of_mem _ hi⟩

/-- C4 witness: loading the legacy file `["a"]` at time 5 with window 7
yields the in-memory entry `("a", 5)` while the file stays legacy. -/
theorem C4_witness :
    (loadResult (some 7) 5 (FileState.ok ⟨none, some ["a"]⟩)).1
        = [("a", some 5)] ∧
    (loadResult (some 7) 5 (FileState.ok ⟨none, some ["a"]⟩)).2.1
        = FileState.ok ⟨none, some ["a"]⟩ := by
  have h := C4_legacy_migration_in_memory_only 5 ["a"] 7 (by decide)
  exact ⟨by simpa using h.2.2.1, h.2.2.2.1⟩

end Tracking

namespace Sched

theorem runCycle_none_trace (alerts : List Runner) :
    ∀ t, (runCycle none alerts t).1 = alerts.map Runner.id := by
  induction alerts with
  | nil => intro t; rfl
  | cons r rest ih =>
    intro t
    cases hb : r.behavior <;> simp [runCycle, flagAt, invoke, hb, ih]

theorem time_le_runCycle (s : Option Nat) (alerts : List Runner) :
    ∀ t, t ≤ (runCycle s alerts t).2 := by
  induction alerts with
  | nil => intro t; exact Nat.le_refl t
  | cons r rest ih =>
    intro t
    by_cases hf : flagAt s t
    · simp [runCycle, hf]
    · have h2 := ih (t + r.dur)
      cases hb : r.behavior <;> simp [runCycle, hf, invoke, hb] <;> omega

/-- C7: a cycle invokes every registered runner in registration order; an
exception raised by one runner is caught and the remaining runners still run.
In particular with two runners where the first raises, `run_once` still
invokes the second exactly once and returns (it is a total function). -/
theorem C7_runner_isolation :
    (∀ alerts : List Runner, run_once none alerts = alerts.map Runner.id) ∧
    run_once none [⟨1, Behavior.exn, 0⟩, ⟨2, Behavior.ok, 0⟩] = [1, 2] ∧
    (run_once none [⟨1, Behavior.exn, 0⟩, ⟨2, Behavior.ok, 0⟩]).count 2 = 1 := by
  refine ⟨?_, by decide, by decide⟩
  intro alerts
  exact runCycle_none_trace alerts 0

/-- C8: when the shutdown flag is set, no new work starts.  The interruptible
wait returns as soon as the flag is set (at the flag time, not after the full
interval); one loop iteration whose sleep window covers the flag time ends in
the stopped state no later than `max` of cycle-end time and flag time; and a
cycle whose flag is already set starts no runner at all. -/
theorem C8_shutdown_responsiveness :
    (∀ s0 start timeout : Nat, s0 ≤ start →
        waitEvent (some s0) start timeout = (start, true)) ∧
    (∀ s0 start timeout : Nat, start < s0 → s0 ≤ start + timeout →
        waitEvent (some s0) start timeout = (s0, true)) ∧
    (∀ (s0 interval : Nat) (alerts : List Runner) (st : LoopState),
        st.stopped = false →
        s0 ≤ (runCycle (some s0) alerts st.time).2 + interval →
        (loopStep (some s0) alerts interval st).stopped = true ∧
        (loopStep (some s0) alerts interval st).time
            ≤ max (runCycle (some s0) alerts st.time).2 s0) ∧
    (∀ (s : Option Nat) (alerts : List Runner) (t : Nat),
        flagAt s t = true → runCycle s alerts t = ([], t)) := by
  refine ⟨?_, ?_, ?_, ?_⟩
  · intro s0 start timeout h
    simp [waitEvent, h]
  · intro s0 start timeout h1 h2
    rw [waitEvent]
    rw [if_neg (by omega), if_pos h2]
  · intro s0 interval alerts st hstop hle
    have htle := time_le_runCycle (some s0) alerts st.time
    simp only [loopStep, hstop, Bool.false_eq_true, if_false]
    by_cases hf1 : flagAt (some s0) st.time
    · rw [if_pos hf1]
      refine ⟨rfl, ?_⟩
      simp only [flagAt, decide_eq_true_eq] at hf1
      show st.time ≤ max (runCycle (some s0) alerts st.time).2 s0
      omega
    · simp only [hf1, if_false]
      by_cases hf2 : flagAt (some s0) (runCycle (some s0) alerts st.time).2
      · simp only [hf2, if_true]
        exact ⟨rfl, Nat.le_max_left _ _⟩
      · simp only [hf2, if_false]
        simp only [flagAt, decide_eq_true_eq] at hf2
        rw [waitEvent]
        rw [if_neg hf2, if_pos hle]
        exact ⟨rfl, Nat.le_max_right _ _⟩
  · intro s alerts t hf
    cases alerts with
    | nil => rfl
    | cons r rest => simp [runCycle, hf]

/-- C8 witness: the flag set at 5 interrupts a wait started at 3 with timeout
10 at time 5; a loop iteration starting at time 3 with that flag stops; and a
cycle entered with the flag already set invokes nothing. -/
theorem C8_witness :
    waitEvent (some 5) 3 10 = (5, true) ∧
    (loopStep (some 5) [] 10 ⟨3, false, []⟩).stopped = true ∧
    (loopStep (some 5) [] 10 ⟨3, false, []⟩).time
        ≤ max (runCycle (some 5) ([] : List Runner) 3).2 5 ∧
    runCycle (some 0) [⟨1, Behavior.ok, 1⟩] 3 = ([], 3) := by
  have h := C8_shutdown_responsiveness
  refine ⟨h.2.1 5 3 10 (by decide) (by decide), ?_, ?_,
    h.2.2.2 (some 0) [⟨1, Behavior.ok, 1⟩] 3 (by decide)⟩
  · exact (h.2.2.1 5 10 [] ⟨3, false, []⟩ rfl (by decide)).1
  · exact (h.2.2.1 5 10 [] ⟨3, false, []⟩ rfl (by decide)).2

end Sched
